import Mathlib

/-!
Verification of the pxx process orchestrator and proxy engine against its
specification.  The Lean definitions below are shallow embeddings of the Rust
source files `src/main.rs`, `src/command.rs`, `src/args.rs` and `src/proxy.rs`:
pure data flow is translated to Lean functions, host-system effects (reads,
writes, process exits, address resolution) are passed in explicitly as values
or functions describing the outcome of each effect, and fallible or panicking
operations return `Except`/`Option`.

The file is organised as definitions first (grouped by source file), then the
theorems.
-/

namespace Pxx

/-! ## Exit status model (std::process::ExitStatus, Unix semantics)

A child either exited normally with a numeric code or was terminated by a
signal.  `success` holds exactly for a normal exit with code 0, and `code`
is the numeric code when the child exited normally (`none` after a signal),
mirroring the std contract used by `main.rs`. -/

inductive ExitStatus where
  | exited (c : Int)
  | signaled (sig : Nat)
deriving DecidableEq, Repr

def ExitStatus.success : ExitStatus → Bool
  | .exited c => c == 0
  | .signaled _ => false

def ExitStatus.code : ExitStatus → Option Int
  | .exited c => some c
  | .signaled _ => none

/-! ## src/main.rs : exit-code aggregation (`wait`)

`wait` repeatedly takes the **last** task of the vector (`tasks.last_mut()`),
awaits it, records its code in `code` if it failed and no failure was recorded
yet (`!exit.success() && *code == 0`), falling back to 1 when the failing
process has no numeric code (`exit.code().unwrap_or(1)`), then pops the task.
The argument is the list of completion outcomes in declaration order (the
order the tasks were pushed), so the traversal visits them in reverse.  The
result depends on the outcomes alone: the loop awaits every task whatever
their wall-clock completion order was. -/

def wait (tasks : List ExitStatus) (code : Int) : Int :=
  match h : tasks.getLast? with
  | none => code
  | some exit =>
      wait tasks.dropLast
        (if exit.success = false ∧ code = 0 then (ExitStatus.code exit).getD 1 else code)
termination_by tasks.length
decreasing_by
  have hne : tasks ≠ [] := by
    intro hnil
    rw [hnil] at h
    simp at h
  have : tasks.length ≠ 0 := by
    simpa using List.length_pos.mpr hne |>.ne'
  simp [List.length_dropLast]
  omega

/-- Helper: the same loop expressed in traversal order (head processed first). -/
def waitRev : List ExitStatus → Int → Int
  | [], code => code
  | exit :: rest, code =>
      waitRev rest
        (if exit.success = false ∧ code = 0 then (ExitStatus.code exit).getD 1 else code)

/-- The first failing outcome in the aggregation traversal order
(reverse declaration order: last spawned checked first). -/
def firstFailure (tasks : List ExitStatus) : Option ExitStatus :=
  tasks.reverse.find? (fun exit => !exit.success)

/-! ## src/command.rs : command construction (`shell`, `raw`)

`tokio::process::Command` is modelled by the data `spawn` and `exec` consume:
the program, its argument list and the configured stdin policy.  `shell`
configures `.stdin(Stdio::piped())`, `raw` configures `.stdin(Stdio::null())`
and splits the command text at whitespace, unwrapping the first word. -/

inductive StdioCfg where
  | piped
  | null
  | inherit
deriving DecidableEq, Repr

structure Command where
  program : String
  args : List String
  stdinCfg : StdioCfg
deriving DecidableEq, Repr

/-- Rust `char::is_whitespace` (the Unicode White_Space property), used by
`str::split_whitespace`. -/
def isRustWhitespace (c : Char) : Bool :=
  c == ' ' || c == '\t' || c == '\n' || (0x0b ≤ c.toNat && c.toNat ≤ 0x0d) ||
  c.toNat == 0x85 || c.toNat == 0xa0 || c.toNat == 0x1680 ||
  (0x2000 ≤ c.toNat && c.toNat ≤ 0x200a) ||
  c.toNat == 0x2028 || c.toNat == 0x2029 || c.toNat == 0x202f ||
  c.toNat == 0x205f || c.toNat == 0x3000

/-- Word splitter behind `str::split_whitespace`: maximal runs of
non-whitespace characters, with no empty words. -/
def splitWsAux : List Char → List Char → List (List Char)
  | [], acc => if acc = [] then [] else [acc.reverse]
  | c :: rest, acc =>
      if isRustWhitespace c then
        if acc = [] then splitWsAux rest []
        else acc.reverse :: splitWsAux rest []
      else splitWsAux rest (c :: acc)

def splitWs (s : String) : List (List Char) :=
  splitWsAux s.toList []

/-- Model of command.rs `shell`: the command text is passed to the shell as a
single final argument after the shell arguments, and stdin is a pipe. -/
def shell (sh : String) (shellArgs : List String) (cmd : String) : Command :=
  { program := sh, args := shellArgs ++ [cmd], stdinCfg := .piped }

/-- Model of command.rs `raw`: the command text is split at whitespace, the
first word is unwrapped as the program (`iter.next().unwrap()`, a panic when
there is none, modelled as `none`), the rest are the arguments, and stdin is
`Stdio::null()`. -/
def raw (cmd : String) : Option Command :=
  match splitWs cmd with
  | [] => none
  | w :: ws => some { program := ⟨w⟩, args := ws.map (fun l => ⟨l⟩), stdinCfg := .null }

/-! ## src/command.rs : `spawn`

On a successful OS-level spawn, the handle to the child's stdin is captured by
the parent exactly when stdin was configured as a pipe (the std/tokio
contract: `child.stdin` is `Some` only for `Stdio::piped()`).  `spawn` sets
stdout/stderr to pipes when buffering is on and to inherit otherwise, spawns,
and unwraps `child.stdin.take()` — a panic (modelled as `none`) when the
handle is absent. -/

structure Child where
  stdin : Option Unit
  outErrPiped : Bool
deriving DecidableEq, Repr

/-- The OS spawn step on its successful path (spawn errors are host I/O
failures orthogonal to the unwrap this model is about). -/
def osSpawn (command : Command) (outErrPiped : Bool) : Child :=
  { stdin := if command.stdinCfg = .piped then some () else none,
    outErrPiped := outErrPiped }

/-- Model of command.rs `spawn` after a successful OS spawn: `none` is the
panic of `child.stdin.take().unwrap()`. -/
def spawn (command : Command) (buffered : Bool) : Option (Child × Unit) :=
  let child := osSpawn command buffered
  match child.stdin with
  | some h => some ({ child with stdin := none }, h)
  | none => none

/-! ## src/command.rs : `broadcast`

The broadcaster loops: read one chunk from the orchestrator's stdin into an
8 KiB buffer (`n = 0` means end of stream: `break Ok(())`), then write the
`n` bytes just read (`&buf[..n]`) to every child stdin in vector order
(declaration order) with `write_all(..).await?` — the `?` aborts the whole
broadcast on the first failed write.

The environment is explicit: `chunks` is the list of successful nonempty
reads (the list ends at end of stream), and `writeOk i j` tells whether the
write of chunk `j` to process `i` would succeed were it attempted.  The
result records the trace of performed writes `(process, chunk index, bytes)`
in order, and whether the broadcast returned `Ok`. -/

def writeChunkFrom (writeOk : Nat → Nat → Bool) (j : Nat) (chunk : List Nat) :
    List Nat → List (Nat × Nat × List Nat) × Bool
  | [] => ([], true)
  | i :: is =>
      if writeOk i j then
        let (ws, ok) := writeChunkFrom writeOk j chunk is
        ((i, j, chunk) :: ws, ok)
      else ([], false)

def broadcastFrom (writeOk : Nat → Nat → Bool) (numProcs : Nat) :
    Nat → List (List Nat) → List (Nat × Nat × List Nat) × Bool
  | _, [] => ([], true)
  | j, c :: cs =>
      let (ws, ok) := writeChunkFrom writeOk j c (List.range numProcs)
      if ok then
        let (ws', ok') := broadcastFrom writeOk numProcs (j + 1) cs
        (ws ++ ws', ok')
      else (ws, false)

def broadcast (writeOk : Nat → Nat → Bool) (numProcs : Nat) (chunks : List (List Nat)) :
    List (Nat × Nat × List Nat) × Bool :=
  broadcastFrom writeOk numProcs 0 chunks

/-- The write trace when every write succeeds, beginning at chunk index `j`:
each chunk, in reading order, goes verbatim to every process in declaration
order. -/
def fullTraceFrom (numProcs : Nat) : Nat → List (List Nat) → List (Nat × Nat × List Nat)
  | _, [] => []
  | j, c :: cs =>
      (List.range numProcs).map (fun i => (i, j, c)) ++ fullTraceFrom numProcs (j + 1) cs

def fullTrace (numProcs : Nat) (chunks : List (List Nat)) : List (Nat × Nat × List Nat) :=
  fullTraceFrom numProcs 0 chunks

/-! ## src/command.rs : `exec`, buffered draining

`BufReader::read_until(b'\n', &mut buf)` appends bytes to `buf` up to and
including the first newline, or up to end of stream, and returns the number
of bytes it appended (0 exactly at end of stream).  A child output channel is
modelled as the full byte sequence the child emits on it. -/

def readUntilNl : List Nat → List Nat × List Nat
  | [] => ([], [])
  | b :: rest =>
      if b = 10 then ([10], rest)
      else (b :: (readUntilNl rest).1, (readUntilNl rest).2)

/-- Structural fact about `readUntilNl` needed to justify termination of the
drain loops below: the bytes read plus the remainder are the input. -/
theorem readUntilNl_append : ∀ s : List Nat, (readUntilNl s).1 ++ (readUntilNl s).2 = s
  | [] => rfl
  | b :: rest => by
      rw [readUntilNl]
      by_cases hb : b = 10
      · simp [hb]
      · simp only [hb, if_false, List.cons_append, List.cons.injEq, true_and]
        exact readUntilNl_append rest

theorem readUntilNl_snd_lt (s : List Nat) (b : Nat) (chunk rest : List Nat)
    (h : readUntilNl s = (b :: chunk, rest)) : rest.length < s.length := by
  have hap := readUntilNl_append s
  rw [h] at hap
  have := congrArg List.length hap
  simp only [List.length_append, List.length_cons] at this
  omega

/-- The successive values `read_until` returns for one channel until end of
stream: each element is the bytes of one flush (one line, or the final
unterminated partial line). -/
def lineChunks (s : List Nat) : List (List Nat) :=
  match h : readUntilNl s with
  | ([], _) => []
  | (b :: chunk, rest) => (b :: chunk) :: lineChunks rest
termination_by s.length
decreasing_by
  exact readUntilNl_snd_lt s b chunk rest h

inductive Chan where
  | out
  | err
deriving DecidableEq, Repr

/-- Model of the buffered arm of command.rs `exec`: the `select!` loop with
`biased` priority stdout-read, then stderr-read (each guarded by its done
flag), then `child.wait()`.  Channels are modelled as fully available byte
sequences, so a read is ready whenever its channel is not done and the biased
select resolves deterministically; `child.wait()` resolves once both reads
are disabled.  Each flush appends the accumulated buffer (always empty after
the previous flush cleared it) plus the bytes `read_until` just returned, as
one write performed under that channel's sink lock; the trace records those
writes in order. -/
def execLoop (outBuf outS : List Nat) (outDone : Bool)
    (errBuf errS : List Nat) (errDone : Bool) (status : ExitStatus) :
    List (Chan × List Nat) × ExitStatus :=
  if outDone = false then
    match h : readUntilNl outS with
    | ([], _) => execLoop outBuf outS true errBuf errS errDone status
    | (b :: chunk, rest) =>
        let flushed := outBuf ++ (b :: chunk)
        let next := execLoop [] rest false errBuf errS errDone status
        ((Chan.out, flushed) :: next.1, next.2)
  else if errDone = false then
    match h : readUntilNl errS with
    | ([], _) => execLoop outBuf outS outDone errBuf errS true status
    | (b :: chunk, rest) =>
        let flushed := errBuf ++ (b :: chunk)
        let next := execLoop outBuf outS outDone [] rest false status
        ((Chan.err, flushed) :: next.1, next.2)
  else ([], status)
termination_by
  outS.length + errS.length + (if outDone then 0 else 1) + (if errDone then 0 else 1)
decreasing_by
  all_goals simp_all
  all_goals
    first
      | exact readUntilNl_snd_lt outS b chunk rest h
      | exact readUntilNl_snd_lt errS b chunk rest h

/-! ## src/args.rs and src/proxy.rs : endpoint parsing and display -/

/-- Rust `str::split_once(sep)` for a nonempty separator: split at the first
occurrence of `sep`, `none` when absent. -/
def splitOnceList (sep : List Char) : List Char → Option (List Char × List Char)
  | [] => none
  | c :: rest =>
      if sep.isPrefixOf (c :: rest) then some ([], (c :: rest).drop sep.length)
      else
        match splitOnceList sep rest with
        | some (pre, post) => some (c :: pre, post)
        | none => none

def splitOnceStr (sep s : String) : Option (String × String) :=
  (splitOnceList sep.toList s.toList).map (fun p => (⟨p.1⟩, ⟨p.2⟩))

instance exceptDecidableEq {ε α : Type} [DecidableEq ε] [DecidableEq α] :
    DecidableEq (Except ε α)
  | .ok x, .ok y =>
      if h : x = y then isTrue (by rw [h]) else isFalse (fun hxy => h (Except.ok.inj hxy))
  | .error e, .error f =>
      if h : e = f then isTrue (by rw [h]) else isFalse (fun hef => h (Except.error.inj hef))
  | .ok _, .error _ => isFalse (fun h => Except.noConfusion h)
  | .error _, .ok _ => isFalse (fun h => Except.noConfusion h)

/-- IPv4 socket address, the concrete shape the theorems exercise.  (std's
`SocketAddr` also has a V6 form; nothing below depends on it.) -/
structure SocketAddr where
  ipa : Nat
  ipb : Nat
  ipc : Nat
  ipd : Nat
  port : Nat
deriving DecidableEq, Repr

/-- The target platform of a build: the `#[cfg(unix)]` / `#[cfg(windows)]`
arms of the source are both represented, selected by this flag. -/
inductive Platform where
  | unixOS
  | windowsOS
deriving DecidableEq, Repr

inductive Endpoint where
  | tcp (addr : SocketAddr)
  | unix (path : String)
  | pipe (name : String)
deriving DecidableEq, Repr

/-- The `tcp` closure of `impl FromStr for ProxyEndpoint`: resolve, map the
resolution error, keep exactly the first resolved address, or report that no
addresses were found.  `resolve` is the host `to_socket_addrs` effect. -/
def tcpEndpointOf (resolve : String → Except String (List SocketAddr)) (endpoint : String) :
    Except String Endpoint :=
  match resolve endpoint with
  | .error err => .error ("Invalid address `" ++ endpoint ++ "`: " ++ err)
  | .ok [] => .error ("Invalid hostname `" ++ endpoint ++ "`: no addresses found")
  | .ok (a :: _) => .ok (.tcp a)

/-- Model of `impl FromStr for ProxyEndpoint` (src/args.rs): split once at
`://`; dispatch on the scheme with the platform-gated arms; no scheme means
tcp. -/
def endpointFromStr (resolve : String → Except String (List SocketAddr))
    (plat : Platform) (s : String) : Except String Endpoint :=
  match splitOnceStr "://" s with
  | none => tcpEndpointOf resolve s
  | some (scheme, addr) =>
      if scheme = "tcp" then tcpEndpointOf resolve addr
      else if scheme = "unix" then
        match plat with
        | .unixOS => .ok (.unix addr)
        | .windowsOS => .error "Unix sockets are not supported on Windows"
      else if scheme = "pipe" then
        match plat with
        | .windowsOS => .ok (.pipe addr)
        | .unixOS => .error "Named pipes are not supported on Unix"
      else .error ("Unrecognised scheme `" ++ scheme ++ "`")

def displaySocketAddr (a : SocketAddr) : String :=
  toString a.ipa ++ "." ++ toString a.ipb ++ "." ++ toString a.ipc ++ "." ++ toString a.ipd
    ++ ":" ++ toString a.port

/-- Model of `impl Display for Endpoint` (src/proxy.rs): note the single
colon after the scheme, with no `//`. -/
def displayEndpoint : Endpoint → String
  | .tcp addr => "tcp:" ++ displaySocketAddr addr
  | .unix path => "unix:" ++ path
  | .pipe name => "pipe:" ++ name

def digitsToNat? : List Char → Option Nat
  | [] => none
  | cs =>
      if cs.all (fun c => c.isDigit) then
        some (cs.foldl (fun n c => n * 10 + (c.toNat - 48)) 0)
      else none

/-- Decimal `u16` parse (std also accepts a leading `+`). -/
def parsePort (cs : List Char) : Option Nat :=
  let ds := match cs with
    | '+' :: rest => rest
    | _ => cs
  match digitsToNat? ds with
  | some n => if n ≤ 65535 then some n else none
  | none => none

def splitOnDot : List Char → List (List Char)
  | [] => [[]]
  | c :: rest =>
      let r := splitOnDot rest
      if c = '.' then [] :: r
      else
        match r with
        | [] => [[c]]
        | w :: ws => (c :: w) :: ws

def parseOctet (cs : List Char) : Option Nat :=
  match digitsToNat? cs with
  | some n => if n ≤ 255 then some n else none
  | none => none

def parseIPv4 (cs : List Char) : Option (Nat × Nat × Nat × Nat) :=
  match (splitOnDot cs).map parseOctet with
  | [some a, some b, some c, some d] => some (a, b, c, d)
  | _ => none

/-- Deterministic model of the syntactic stage of std's `ToSocketAddrs` for
strings: split `host:port` at the last colon, parse a decimal `u16` port, and
accept an IPv4-literal host.  DNS resolution of non-literal hostnames is
outside the model and mapped to an error; the theorems apply this model only
on literal or syntactically invalid inputs, where std is deterministic. -/
def rsplitOnceColon (cs : List Char) : Option (List Char × List Char) :=
  match splitOnceList [':'] cs.reverse with
  | some (post, pre) => some (pre.reverse, post.reverse)
  | none => none

def resolveStd (s : String) : Except String (List SocketAddr) :=
  match rsplitOnceColon s.toList with
  | none => .error "invalid socket address"
  | some (host, port) =>
      match parsePort port with
      | none => .error "invalid port value"
      | some p =>
          match parseIPv4 host with
          | some (a, b, c, d) => .ok [⟨a, b, c, d, p⟩]
          | none => .error "failed to lookup address information"

/-! ## src/proxy.rs : the accept loop (`proxy`) -/

inductive TaskOutcome where
  | panicked
  | relayed (ab ba : Nat)
deriving DecidableEq, Repr

/-- The per-connection unit spawned by the accept loop:
`Stream::connect(destination).await.unwrap()` then
`copy_bidirectional(..).await.unwrap()`.  A failed dial or a relay error makes
the corresponding unwrap panic, ending only this spawned task (`panicked`);
the dial and relay outcomes for the connection are environment inputs. -/
def handleConn (dial : Except Nat Unit) (relay : Except Nat (Nat × Nat)) : TaskOutcome :=
  match dial with
  | .error _ => .panicked
  | .ok _ =>
      match relay with
      | .error _ => .panicked
      | .ok p => .relayed p.1 p.2

/-- Model of the `proxy` accept loop: `listener.accept().await?` ends the
whole proxy future on an accept error; an accepted connection (identified by
a number) is handed to a freshly spawned task whose JoinHandle is dropped, so
the loop never observes the task's outcome and a panic inside the task is
contained by the runtime.  `events` is the finite prefix of accept outcomes
the environment provides; the result pairs every accepted connection with its
own task's outcome and gives the accept error that ended the loop, if any. -/
def proxyLoop (handle : Nat → TaskOutcome) :
    List (Except Nat Nat) → List (Nat × TaskOutcome) × Option Nat
  | [] => ([], none)
  | .ok c :: rest =>
      let next := proxyLoop handle rest
      ((c, handle c) :: next.1, next.2)
  | .error e :: _ => ([], some e)

def acceptedConns : List (Except Nat Nat) → List Nat
  | [] => []
  | .ok c :: rest => c :: acceptedConns rest
  | .error _ :: _ => []

def firstAcceptErr : List (Except Nat Nat) → Option Nat
  | [] => none
  | .ok _ :: rest => firstAcceptErr rest
  | .error e :: _ => some e

/-! ## src/proxy.rs : named-pipe dial backoff (`Stream::connect`) -/

inductive OpenResult where
  | client
  | busy
  | fatal (e : Nat)
deriving DecidableEq, Repr

inductive BackoffEvent where
  | yieldNow
  | sleep (ms : Nat)
deriving DecidableEq, Repr

/-- Model of the named-pipe arm of `Stream::connect`: each entry of the list
is the outcome `ClientOptions::new().open(&name)` would give at that attempt
(`client` = Ok, `busy` = the transient `ERROR_PIPE_BUSY` os error 231,
`fatal` = any other error).  Returns the backoff events performed and the
result; `none` when the modelled prefix of attempts ran out while the loop
was still retrying. -/
def connectPipeFrom : List OpenResult → Nat → List BackoffEvent × Option (Except Nat Unit)
  | [], _ => ([], none)
  | .client :: _, _ => ([], some (.ok ()))
  | .fatal e :: _, _ => ([], some (.error e))
  | .busy :: rest, w =>
      let ev := if w = 0 then BackoffEvent.yieldNow else BackoffEvent.sleep w
      let w' := if w = 0 then 1 else w * 2
      let next := connectPipeFrom rest w'
      (ev :: next.1, next.2)

def connectPipe (attempts : List OpenResult) : List BackoffEvent × Option (Except Nat Unit) :=
  connectPipeFrom attempts 0

/-- Expected backoff trace for `k` consecutive busy attempts: one yield, then
sleeps of 1, 2, 4, ... milliseconds, doubling at each subsequent retry. -/
def backoffEvents : Nat → List BackoffEvent
  | 0 => []
  | k + 1 => BackoffEvent.yieldNow :: (List.range k).map (fun t => BackoffEvent.sleep (2 ^ t))

end Pxx

namespace Pxx

/-! # Theorems -/

/-! ## C1 : exit-code aggregation -/

theorem wait_eq_waitRev (tasks : List ExitStatus) (code : Int) :
    wait tasks code = waitRev tasks.reverse code := by
  induction tasks using List.reverseRecOn generalizing code with
  | nil =>
      rw [wait]
      rfl
  | append_singleton init exit ih =>
      rw [wait]
      split
      · next h =>
          simp at h
      · next a h =>
          have ha : a = exit := by
            exact (by simpa using h : exit = a).symm
          subst ha
          rw [List.dropLast_concat, ih]
          simp only [List.reverse_append, List.reverse_cons, List.reverse_nil,
            List.nil_append, List.singleton_append]
          rw [waitRev]

theorem waitRev_of_ne_zero (tasks : List ExitStatus) (code : Int) (h : code ≠ 0) :
    waitRev tasks code = code := by
  induction tasks with
  | nil => rfl
  | cons exit rest ih =>
      rw [waitRev]
      simp only [h, and_false, if_false]
      exact ih

theorem failing_code_ne_zero (exit : ExitStatus) (h : exit.success = false) :
    (ExitStatus.code exit).getD 1 ≠ 0 := by
  cases exit with
  | exited c =>
      simp only [ExitStatus.success, beq_eq_false_iff_ne, ne_eq] at h
      simpa [ExitStatus.code] using h
  | signaled s => simp [ExitStatus.code]

theorem waitRev_zero_eq_firstFailure (tasks : List ExitStatus) :
    waitRev tasks 0 =
      match tasks.find? (fun exit => !exit.success) with
      | none => 0
      | some exit => (ExitStatus.code exit).getD 1 := by
  induction tasks with
  | nil => rfl
  | cons exit rest ih =>
      by_cases hs : exit.success = true
      · rw [waitRev]
        simp only [hs, Bool.true_eq_false, false_and, if_false]
        rw [List.find?_cons_of_neg _ (by simp [hs])]
        exact ih
      · have hs' : exit.success = false := by simpa using hs
        rw [waitRev, if_pos ⟨hs', rfl⟩, List.find?_cons_of_pos _ (by simp [hs'])]
        exact waitRev_of_ne_zero _ _ (failing_code_ne_zero exit hs')

/-- C1: The aggregated exit code is 0 when every process succeeded, and
otherwise the numeric exit code of the first failing outcome in the
aggregation traversal (reverse declaration order: last spawned checked
first), falling back to 1 when the failing process has no numeric code.
The result is a function of the completion-outcome list alone, independent
of wall-clock completion order. -/
theorem wait_exit_code (tasks : List ExitStatus) :
    wait tasks 0 =
      match firstFailure tasks with
      | none => 0
      | some exit => (ExitStatus.code exit).getD 1 := by
  rw [wait_eq_waitRev, firstFailure, waitRev_zero_eq_firstFailure]

/-! ## C10 : `raw` on a whitespace-only command -/

theorem splitWsAux_all_ws (s : List Char) (h : s.all isRustWhitespace = true) :
    splitWsAux s [] = [] := by
  induction s with
  | nil => rfl
  | cons c rest ih =>
      simp only [List.all_cons, Bool.and_eq_true] at h
      rw [splitWsAux]
      simp only [h.1, if_true, if_pos rfl]
      exact ih h.2

/-- C10: for every command string with no non-whitespace characters (empty or
whitespace-only), `split_whitespace` yields no first word, so `raw` panics
unwrapping `iter.next()` (modelled as `none`) instead of returning an error
value. -/
theorem raw_whitespace_only_panics (s : String) (h : s.toList.all isRustWhitespace = true) :
    raw s = none := by
  have hs : splitWs s = [] := by
    rw [splitWs]
    exact splitWsAux_all_ws _ h
  simp [raw, hs]

theorem raw_whitespace_only_panics_witness :
    (" \t ".toList.all isRustWhitespace = true) ∧ raw " \t " = none :=
  ⟨by decide, raw_whitespace_only_panics " \t " (by decide)⟩

/-! ## C2 : the stdin unwrap in `spawn` -/

/-- C2: evaluating `spawn` on commands of both kinds.  A shell-wrapped
command configures stdin as a pipe, so the handle is captured and the unwrap
succeeds for every such command; but a raw command configures stdin as
`Stdio::null()`, so on its (successful) spawn `child.stdin` is absent and
`child.stdin.take().unwrap()` panics — here at the raw command `echo a`.
This contradicts the claim that the spawn of a raw command also yields the
`(future, stdin)` pair without panicking. -/
theorem spawn_raw_stdin_unwrap_panics :
    (raw "echo a").map (fun c => spawn c false) = some none ∧
    (∀ sh shellArgs cmd buffered, (spawn (shell sh shellArgs cmd) buffered).isSome = true) := by
  constructor
  · decide
  · intro sh shellArgs cmd buffered
    rfl

/-! ## C3 : per-connection isolation in the accept loop -/

theorem proxyLoop_eq (handle : Nat → TaskOutcome) (events : List (Except Nat Nat)) :
    proxyLoop handle events =
      ((acceptedConns events).map (fun c => (c, handle c)), firstAcceptErr events) := by
  induction events with
  | nil => rfl
  | cons ev rest ih =>
      cases ev with
      | ok c =>
          rw [proxyLoop, acceptedConns, firstAcceptErr]
          simp [ih]
      | error e => rfl

/-- C3: the accept loop's progress is a function of the accept outcomes
alone, and each accepted connection's fate is `handleConn` of that
connection's own dial and relay outcomes.  Hence a dial failure or relay
error — which makes only that connection's spawned task panic, contained by
the runtime because its JoinHandle is dropped — does not end the accept loop
and leaves every other connection's entry unchanged: the accepted-connection
list and the loop's terminating accept error coincide for any two dial/relay
environments. -/
theorem proxy_connection_isolation :
    (∀ (dial : Nat → Except Nat Unit) (relay : Nat → Except Nat (Nat × Nat))
        (events : List (Except Nat Nat)),
      proxyLoop (fun c => handleConn (dial c) (relay c)) events =
        ((acceptedConns events).map (fun c => (c, handleConn (dial c) (relay c))),
          firstAcceptErr events)) ∧
    (∀ (dial₁ : Nat → Except Nat Unit) (relay₁ : Nat → Except Nat (Nat × Nat))
        (dial₂ : Nat → Except Nat Unit) (relay₂ : Nat → Except Nat (Nat × Nat))
        (events : List (Except Nat Nat)),
      (proxyLoop (fun c => handleConn (dial₁ c) (relay₁ c)) events).1.map Prod.fst =
        (proxyLoop (fun c => handleConn (dial₂ c) (relay₂ c)) events).1.map Prod.fst ∧
      (proxyLoop (fun c => handleConn (dial₁ c) (relay₁ c)) events).2 =
        (proxyLoop (fun c => handleConn (dial₂ c) (relay₂ c)) events).2) := by
  refine ⟨fun dial relay events => proxyLoop_eq _ _, ?_⟩
  intro dial₁ relay₁ dial₂ relay₂ events
  rw [proxyLoop_eq, proxyLoop_eq]
  constructor
  · simp
  · rfl

/-! ## C9 : named-pipe dial backoff -/

theorem connectPipeFrom_busy_pow (k : Nat) (l : List OpenResult) :
    ∀ t, connectPipeFrom (List.replicate k .busy ++ l) (2 ^ t) =
      ((List.range k).map (fun i => BackoffEvent.sleep (2 ^ (t + i)))
          ++ (connectPipeFrom l (2 ^ (t + k))).1,
        (connectPipeFrom l (2 ^ (t + k))).2) := by
  induction k with
  | zero => intro t; simp
  | succ k ih =>
      intro t
      rw [List.replicate_succ, List.cons_append, connectPipeFrom]
      have h2 : ¬((2 : Nat) ^ t = 0) := pow_ne_zero t (by norm_num)
      simp only [h2, if_false]
      have hmul : (2 : Nat) ^ t * 2 = 2 ^ (t + 1) := (pow_succ 2 t).symm
      rw [hmul, ih (t + 1), List.range_succ_eq_map]
      have hfun : ((fun i => BackoffEvent.sleep (2 ^ (t + i))) ∘ Nat.succ) =
          (fun i => BackoffEvent.sleep (2 ^ (t + 1 + i))) := by
        funext i
        simp only [Function.comp_apply]
        congr 1
        congr 1
        omega
      have hidx : t + (k + 1) = t + 1 + k := by omega
      simp only [List.map_cons, List.map_map, List.cons_append, Nat.add_zero, hfun, hidx]

/-- C9: dialing a named pipe that reports the transient pipe-busy error
retries with an increasing backoff: for `k` busy attempts the connect first
yields once, then sleeps 1, 2, 4, ... ms (doubling at each subsequent retry),
and it returns the connected stream as soon as an attempt succeeds, or
returns immediately any non-transient error. -/
theorem connectPipe_backoff :
    (∀ k (rest : List OpenResult),
        connectPipe (List.replicate k .busy ++ .client :: rest) =
          (backoffEvents k, some (.ok ()))) ∧
    (∀ k e (rest : List OpenResult),
        connectPipe (List.replicate k .busy ++ .fatal e :: rest) =
          (backoffEvents k, some (.error e))) := by
  have main : ∀ (k : Nat) (l : List OpenResult) (r : Except Nat Unit),
      (∀ w, connectPipeFrom l w = ([], some r)) →
      connectPipe (List.replicate k .busy ++ l) = (backoffEvents k, some r) := by
    intro k l r hl
    cases k with
    | zero =>
        simpa [connectPipe, backoffEvents] using hl 0
    | succ k =>
        unfold connectPipe
        rw [List.replicate_succ, List.cons_append, connectPipeFrom]
        have hstep := connectPipeFrom_busy_pow k l 0
        rw [hl (2 ^ (0 + k))] at hstep
        rw [show ((2 : Nat) ^ 0) = 1 from rfl] at hstep
        simp [hstep, backoffEvents]
  constructor
  · intro k rest
    exact main k (.client :: rest) (.ok ()) (fun w => rfl)
  · intro k e rest
    exact main k (.fatal e :: rest) (.error e) (fun w => rfl)

/-! ## C5, C6 : the stdin broadcaster -/

theorem writeChunkFrom_all_ok (writeOk : Nat → Nat → Bool) (j : Nat) (chunk : List Nat)
    (procs : List Nat) (h : ∀ i ∈ procs, writeOk i j = true) :
    writeChunkFrom writeOk j chunk procs = (procs.map (fun i => (i, j, chunk)), true) := by
  induction procs with
  | nil => rfl
  | cons i is ih =>
      have hi := h i (List.mem_cons_self i is)
      rw [writeChunkFrom, hi, if_pos rfl,
        ih (fun i' hi' => h i' (List.mem_cons_of_mem _ hi'))]
      rfl

theorem writeChunkFrom_first_fail (writeOk : Nat → Nat → Bool) (j : Nat) (chunk : List Nat)
    (pre post : List Nat) (i₀ : Nat)
    (hpre : ∀ i ∈ pre, writeOk i j = true) (hfail : writeOk i₀ j = false) :
    writeChunkFrom writeOk j chunk (pre ++ i₀ :: post) =
      (pre.map (fun i => (i, j, chunk)), false) := by
  induction pre with
  | nil =>
      rw [List.nil_append, writeChunkFrom, hfail]
      simp
  | cons i is ih =>
      have hi := hpre i (List.mem_cons_self i is)
      rw [List.cons_append, writeChunkFrom, hi, if_pos rfl,
        ih (fun i' hi' => hpre i' (List.mem_cons_of_mem _ hi'))]
      rfl

theorem range_decompose (i₀ : Nat) :
    ∀ m, ∃ post, List.range (i₀ + 1 + m) = List.range i₀ ++ i₀ :: post := by
  intro m
  induction m with
  | zero =>
      refine ⟨[], ?_⟩
      rw [Nat.add_zero, List.range_succ]
  | succ m ih =>
      obtain ⟨post, hpost⟩ := ih
      refine ⟨post ++ [i₀ + 1 + m], ?_⟩
      rw [show i₀ + 1 + (m + 1) = (i₀ + 1 + m) + 1 from by omega, List.range_succ, hpost]
      simp

theorem broadcastFrom_all_ok (writeOk : Nat → Nat → Bool) (n : Nat) :
    ∀ (cs : List (List Nat)) (j : Nat),
      (∀ i, i < n → ∀ dj, dj < cs.length → writeOk i (j + dj) = true) →
      broadcastFrom writeOk n j cs = (fullTraceFrom n j cs, true) := by
  intro cs
  induction cs with
  | nil =>
      intro j _
      rfl
  | cons c cs ih =>
      intro j h
      rw [broadcastFrom, writeChunkFrom_all_ok writeOk j c (List.range n)
        (fun i hi => by simpa using h i (List.mem_range.mp hi) 0 (by simp))]
      rw [ih (j + 1) (fun i hi dj hdj => by
        have := h i hi (dj + 1) (by simpa using Nat.succ_lt_succ hdj)
        rwa [show j + (dj + 1) = j + 1 + dj from by omega] at this)]
      rw [fullTraceFrom]
      rfl

theorem broadcastFrom_first_fail (writeOk : Nat → Nat → Bool) (n : Nat) :
    ∀ (cs : List (List Nat)) (j j₀ i₀ : Nat), j₀ < cs.length → i₀ < n →
      (∀ i, i < n → ∀ dj, dj < j₀ → writeOk i (j + dj) = true) →
      (∀ i, i < i₀ → writeOk i (j + j₀) = true) →
      writeOk i₀ (j + j₀) = false →
      broadcastFrom writeOk n j cs =
        (fullTraceFrom n j (cs.take j₀)
           ++ (List.range i₀).map (fun i => (i, j + j₀, cs.getD j₀ [])), false) := by
  intro cs
  induction cs with
  | nil =>
      intro j j₀ i₀ hj
      simp at hj
  | cons c cs ih =>
      intro j j₀ i₀ hj hi hbefore hrow hfail
      cases j₀ with
      | zero =>
          obtain ⟨post, hpost⟩ := range_decompose i₀ (n - i₀ - 1)
          rw [show i₀ + 1 + (n - i₀ - 1) = n from by omega] at hpost
          rw [broadcastFrom, hpost,
            writeChunkFrom_first_fail writeOk j c (List.range i₀) post i₀
              (fun i hi' => by simpa using hrow i (List.mem_range.mp hi'))
              (by simpa using hfail)]
          simp [List.take_zero, fullTraceFrom, List.getD]
      | succ j₀' =>
          rw [broadcastFrom, writeChunkFrom_all_ok writeOk j c (List.range n)
            (fun i hi' => by
              simpa using hbefore i (List.mem_range.mp hi') 0 (Nat.succ_pos _))]
          rw [ih (j + 1) j₀' i₀ (by simpa using hj) hi
            (fun i hi' dj hdj => by
              have := hbefore i hi' (dj + 1) (by simpa using Nat.succ_lt_succ hdj)
              rwa [show j + (dj + 1) = j + 1 + dj from by omega] at this)
            (fun i hi' => by
              have := hrow i hi'
              rwa [show j + (j₀' + 1) = j + 1 + j₀' from by omega] at this)
            (by
              have := hfail
              rwa [show j + (j₀' + 1) = j + 1 + j₀' from by omega] at this)]
          rw [List.take_succ_cons, fullTraceFrom]
          simp [show j + 1 + j₀' = j + (j₀' + 1) from by omega]

/-- C6: for every chunk successfully read from the orchestrator's stdin, when
no write fails the broadcaster writes exactly those bytes, unmodified, to
every process input handle in declaration order (processes `0..n-1`, chunks
in reading order), and it stops reporting success at end of stream. -/
theorem broadcast_delivers_all (writeOk : Nat → Nat → Bool) (n : Nat) (chunks : List (List Nat))
    (h : ∀ i, i < n → ∀ j, j < chunks.length → writeOk i j = true) :
    broadcast writeOk n chunks = (fullTrace n chunks, true) := by
  rw [broadcast, fullTrace]
  exact broadcastFrom_all_ok writeOk n chunks 0 (fun i hi dj hdj => by simpa using h i hi dj hdj)

theorem broadcast_delivers_all_witness :
    broadcast (fun _ _ => true) 2 [[1, 2], [3]] =
      ([(0, 0, [1, 2]), (1, 0, [1, 2]), (0, 1, [3]), (1, 1, [3])], true) :=
  (broadcast_delivers_all (fun _ _ => true) 2 [[1, 2], [3]]
      (fun _ _ _ _ => rfl)).trans (by decide)

/-- C5: when the traversal-first failing write is that of chunk `j₀` to
process `i₀` (all writes of earlier chunks succeed, as do the writes of chunk
`j₀` to earlier processes), the broadcast performs exactly those earlier
writes and then fails immediately and permanently: no later chunk is
forwarded to any process, including processes whose own writes would still
succeed. -/
theorem broadcast_fails_permanently (writeOk : Nat → Nat → Bool) (n : Nat)
    (chunks : List (List Nat)) (j₀ i₀ : Nat)
    (hj : j₀ < chunks.length) (hi : i₀ < n)
    (hbefore : ∀ i, i < n → ∀ j, j < j₀ → writeOk i j = true)
    (hrow : ∀ i, i < i₀ → writeOk i j₀ = true)
    (hfail : writeOk i₀ j₀ = false) :
    broadcast writeOk n chunks =
      (fullTraceFrom n 0 (chunks.take j₀)
         ++ (List.range i₀).map (fun i => (i, j₀, chunks.getD j₀ [])), false) := by
  rw [broadcast]
  have := broadcastFrom_first_fail writeOk n chunks 0 j₀ i₀ hj hi
    (fun i hi' dj hdj => by simpa using hbefore i hi' dj hdj)
    (fun i hi' => by simpa using hrow i hi')
    (by simpa using hfail)
  simpa using this

theorem broadcast_fails_permanently_witness :
    broadcast (fun i j => !(i == 1 && j == 1)) 2 [[1], [2], [3]] =
      ([(0, 0, [1]), (1, 0, [1]), (0, 1, [2])], false) :=
  (broadcast_fails_permanently (fun i j => !(i == 1 && j == 1)) 2 [[1], [2], [3]] 1 1
      (by decide) (by decide) (by decide) (by decide) (by decide)).trans (by decide)

/-! ## C8 : buffered output draining -/

theorem readUntilNl_fst_eq_nil (s rest : List Nat) (h : readUntilNl s = ([], rest)) :
    s = [] := by
  cases s with
  | nil => rfl
  | cons b r =>
      rw [readUntilNl] at h
      by_cases hb : b = 10 <;> simp [hb] at h

theorem readUntilNl_terminated (s : List Nat) :
    (readUntilNl s).2 ≠ [] → (readUntilNl s).1.getLast? = some 10 := by
  induction s with
  | nil => simp [readUntilNl]
  | cons b r ih =>
      rw [readUntilNl]
      by_cases hb : b = 10
      · simp [hb]
      · simp only [hb, if_false]
        intro h2
        have hl := ih h2
        have hne : (readUntilNl r).1 ≠ [] := by
          intro hnil
          rw [hnil] at hl
          simp at hl
        obtain ⟨c, t, hct⟩ := List.exists_cons_of_ne_nil hne
        rw [hct] at hl ⊢
        rw [List.getLast?_cons_cons]
        exact hl

theorem lineChunks_nil_of (s rest : List Nat) (h : readUntilNl s = ([], rest)) :
    lineChunks s = [] := by
  rw [lineChunks]
  split
  · rfl
  · next b chunk rest' h' =>
      rw [h'] at h
      simp at h

theorem lineChunks_cons_of (s : List Nat) (b : Nat) (chunk rest : List Nat)
    (h : readUntilNl s = (b :: chunk, rest)) :
    lineChunks s = (b :: chunk) :: lineChunks rest := by
  rw [lineChunks]
  split
  · next rest' h' =>
      rw [h'] at h
      simp at h
  · next b' chunk' rest' h' =>
      rw [h'] at h
      simp only [Prod.mk.injEq, List.cons.injEq] at h
      obtain ⟨⟨hb, hc⟩, hr⟩ := h
      subst hb
      subst hc
      subst hr
      rfl

theorem lineChunks_join : ∀ s : List Nat, (lineChunks s).flatten = s
  | s => by
    rw [lineChunks]
    split
    · next rest h =>
        have hnil := readUntilNl_fst_eq_nil s rest h
        subst hnil
        rfl
    · next b chunk rest h =>
        have hap := readUntilNl_append s
        rw [h] at hap
        rw [List.flatten_cons, lineChunks_join rest]
        exact hap
termination_by s => s.length
decreasing_by exact readUntilNl_snd_lt _ _ _ _ (by assumption)

theorem lineChunks_ne_nil : ∀ s : List Nat, ∀ c ∈ lineChunks s, c ≠ []
  | s => by
    rw [lineChunks]
    split
    · next rest h => simp
    · next b chunk rest h =>
        intro c hc
        rw [List.mem_cons] at hc
        rcases hc with hc | hc
        · subst hc
          simp
        · exact lineChunks_ne_nil rest c hc
termination_by s => s.length
decreasing_by exact readUntilNl_snd_lt _ _ _ _ (by assumption)

theorem lineChunks_dropLast_terminated :
    ∀ s : List Nat, ∀ c ∈ (lineChunks s).dropLast, c.getLast? = some 10
  | s => by
    rw [lineChunks]
    split
    · next rest h => simp
    · next b chunk rest h =>
        intro c hc
        cases hrest : lineChunks rest with
        | nil =>
            rw [hrest] at hc
            simp at hc
        | cons d ds =>
            rw [hrest, List.dropLast_cons₂, List.mem_cons] at hc
            rcases hc with hc | hc
            · subst hc
              have hrne : rest ≠ [] := by
                intro hn
                subst hn
                rw [lineChunks_nil_of [] [] rfl] at hrest
                exact List.noConfusion hrest
              have hterm := readUntilNl_terminated s (by
                rw [h]
                exact hrne)
              rw [h] at hterm
              exact hterm
            · have := lineChunks_dropLast_terminated rest c
              rw [hrest] at this
              exact this hc
termination_by s => s.length
decreasing_by exact readUntilNl_snd_lt _ _ _ _ (by assumption)

theorem execLoop_err_phase :
    ∀ (errS outBuf outS : List Nat) (st : ExitStatus),
      execLoop outBuf outS true [] errS false st =
        ((lineChunks errS).map (fun c => (Chan.err, c)), st)
  | errS, outBuf, outS, st => by
    rw [execLoop, if_neg (by simp), if_pos rfl]
    split
    · next rest h =>
        rw [execLoop, if_neg (by simp), if_neg (by simp),
          lineChunks_nil_of errS rest h]
        rfl
    · next b chunk rest h =>
        rw [lineChunks_cons_of errS b chunk rest h,
          execLoop_err_phase rest outBuf outS st]
        simp
termination_by errS outBuf outS st => errS.length
decreasing_by exact readUntilNl_snd_lt _ _ _ _ (by assumption)

theorem execLoop_trace :
    ∀ (outS errS : List Nat) (st : ExitStatus),
      execLoop [] outS false [] errS false st =
        ((lineChunks outS).map (fun c => (Chan.out, c))
           ++ (lineChunks errS).map (fun c => (Chan.err, c)), st)
  | outS, errS, st => by
    rw [execLoop, if_pos rfl]
    split
    · next rest h =>
        rw [execLoop_err_phase errS [] outS st, lineChunks_nil_of outS rest h]
        simp
    · next b chunk rest h =>
        rw [lineChunks_cons_of outS b chunk rest h, execLoop_trace rest errS st]
        simp
termination_by outS errS st => outS.length
decreasing_by exact readUntilNl_snd_lt _ _ _ _ (by assumption)

/-- C8 counterexample: a child whose stdout is the single byte `a` (97) with
no newline.  `read_until` reaches end of stream, returns that final partial
line without any newline terminator, and the loop flushes it to the sink
anyway — contradicting the claim that a chunk is written only when a read has
yielded at least one full buffered line including the terminator. -/
theorem exec_flush_unterminated :
    execLoop [] [97] false [] [] false (.exited 0) =
      ([(Chan.out, [97])], .exited 0) ∧ (10 : Nat) ∉ [97] := by
  constructor
  · have h0 : lineChunks ([] : List Nat) = [] := lineChunks_nil_of [] [] rfl
    have h1 : lineChunks [97] = [[97]] := by
      rw [lineChunks_cons_of [97] 97 [] [] rfl, h0]
    rw [execLoop_trace, h0, h1]
    rfl
  · decide

/-- C8 amended: in buffered mode each flush writes, under that stream's sink
lock, exactly the bytes the `read_until` call returned (the buffer is cleared
after each flush, so the flushes concatenate to the channel's bytes
verbatim); a chunk is flushed whenever a read yields at least one byte: every
flushed chunk is nonempty and ends with the newline terminator, except
possibly the final chunk of a channel, which may be an unterminated partial
line flushed at end of stream.  End of stream on one channel stops further
reads on that channel but the other channel is still drained fully (the trace
contains the other channel's every chunk even when this one ends first). -/
theorem exec_buffered_flushes :
    (∀ (outS errS : List Nat) (st : ExitStatus),
        execLoop [] outS false [] errS false st =
          ((lineChunks outS).map (fun c => (Chan.out, c))
             ++ (lineChunks errS).map (fun c => (Chan.err, c)), st)) ∧
    (∀ s : List Nat, (lineChunks s).flatten = s) ∧
    (∀ s : List Nat, ∀ c ∈ lineChunks s, c ≠ []) ∧
    (∀ s : List Nat, ∀ c ∈ (lineChunks s).dropLast, c.getLast? = some 10) :=
  ⟨execLoop_trace, lineChunks_join, lineChunks_ne_nil, lineChunks_dropLast_terminated⟩

theorem exec_buffered_flushes_witness :
    ([104, 10] ∈ lineChunks [104, 10, 97]) ∧ ([104, 10] ≠ ([] : List Nat)) ∧
    ([104, 10] ∈ (lineChunks [104, 10, 97]).dropLast) ∧
    (([104, 10] : List Nat).getLast? = some 10) := by
  have h1 : lineChunks [104, 10, 97] = [[104, 10], [97]] := by
    rw [lineChunks_cons_of [104, 10, 97] 104 [10] [97] rfl,
      lineChunks_cons_of [97] 97 [] [] rfl, lineChunks_nil_of [] [] rfl]
  have hmem : [104, 10] ∈ lineChunks [104, 10, 97] := by
    rw [h1]
    exact List.mem_cons_self _ _
  have hmem' : [104, 10] ∈ (lineChunks [104, 10, 97]).dropLast := by
    rw [h1]
    exact List.mem_cons_self _ _
  exact ⟨hmem, exec_buffered_flushes.2.2.1 _ _ hmem,
    hmem', exec_buffered_flushes.2.2.2 _ _ hmem'⟩

/-! ## C4, C7 : endpoint parsing and formatting -/

theorem string_toList_append (a b : String) : (a ++ b).toList = a.toList ++ b.toList := by
  cases a
  cases b
  rfl

theorem string_mk_toList (s : String) : (⟨s.toList⟩ : String) = s := by
  cases s
  rfl

theorem splitOnceList_at_sep (sch addr : List Char) (h : ∀ c ∈ sch, c ≠ ':') :
    splitOnceList [':', '/', '/'] (sch ++ ':' :: '/' :: '/' :: addr) = some (sch, addr) := by
  induction sch with
  | nil =>
      rw [List.nil_append, splitOnceList, if_pos (by simp [List.isPrefixOf])]
      simp
  | cons c rest ih =>
      rw [List.cons_append, splitOnceList, if_neg ?hpre,
        ih (fun x hx => h x (List.mem_cons_of_mem _ hx))]
      case hpre =>
        have hc := h c (List.mem_cons_self c rest)
        simp only [List.isPrefixOf, Bool.and_eq_true, beq_iff_eq]
        exact fun hand => hc hand.1.symm

theorem splitOnceStr_at_sep (sch addr : String) (h : ∀ c ∈ sch.toList, c ≠ ':') :
    splitOnceStr "://" (sch ++ "://" ++ addr) = some (sch, addr) := by
  have hlist : (sch ++ "://" ++ addr).toList =
      sch.toList ++ ':' :: '/' :: '/' :: addr.toList := by
    rw [string_toList_append, string_toList_append]
    simp [List.append_assoc]
  rw [splitOnceStr, hlist, show ("://" : String).toList = [':', '/', '/'] from rfl,
    splitOnceList_at_sep sch.toList addr.toList h]
  simp [string_mk_toList]

theorem scheme_append_eq (sch addr : String) (lit : String)
    (hlit : lit = sch ++ "://") : lit ++ addr = sch ++ "://" ++ addr := by
  rw [hlit]

theorem endpointFromStr_explicit_tcp (resolve : String → Except String (List SocketAddr))
    (plat : Platform) (s : String) :
    endpointFromStr resolve plat ("tcp://" ++ s) = tcpEndpointOf resolve s := by
  rw [scheme_append_eq "tcp" s "tcp://" (by decide), endpointFromStr,
    splitOnceStr_at_sep "tcp" s (by decide)]
  rfl

theorem endpointFromStr_explicit_unix (resolve : String → Except String (List SocketAddr))
    (plat : Platform) (s : String) :
    endpointFromStr resolve plat ("unix://" ++ s) =
      (match plat with
       | .unixOS => .ok (.unix s)
       | .windowsOS => .error "Unix sockets are not supported on Windows") := by
  rw [scheme_append_eq "unix" s "unix://" (by decide), endpointFromStr,
    splitOnceStr_at_sep "unix" s (by decide)]
  rfl

theorem endpointFromStr_explicit_pipe (resolve : String → Except String (List SocketAddr))
    (plat : Platform) (s : String) :
    endpointFromStr resolve plat ("pipe://" ++ s) =
      (match plat with
       | .windowsOS => .ok (.pipe s)
       | .unixOS => .error "Named pipes are not supported on Unix") := by
  rw [scheme_append_eq "pipe" s "pipe://" (by decide), endpointFromStr,
    splitOnceStr_at_sep "pipe" s (by decide)]
  rfl

theorem endpointFromStr_unknown_scheme (resolve : String → Except String (List SocketAddr))
    (plat : Platform) (sch addr : String) (hcolon : ∀ c ∈ sch.toList, c ≠ ':')
    (h1 : sch ≠ "tcp") (h2 : sch ≠ "unix") (h3 : sch ≠ "pipe") :
    endpointFromStr resolve plat (sch ++ "://" ++ addr) =
      .error ("Unrecognised scheme `" ++ sch ++ "`") := by
  rw [endpointFromStr, splitOnceStr_at_sep sch addr hcolon]
  simp [h1, h2, h3]

theorem tcpEndpointOf_resolve_error (resolve : String → Except String (List SocketAddr))
    (s e : String) (h : resolve s = .error e) :
    tcpEndpointOf resolve s = .error ("Invalid address `" ++ s ++ "`: " ++ e) := by
  rw [tcpEndpointOf, h]

theorem tcpEndpointOf_resolve_empty (resolve : String → Except String (List SocketAddr))
    (s : String) (h : resolve s = .ok []) :
    tcpEndpointOf resolve s = .error ("Invalid hostname `" ++ s ++ "`: no addresses found") := by
  rw [tcpEndpointOf, h]

theorem tcpEndpointOf_resolve_first (resolve : String → Except String (List SocketAddr))
    (s : String) (a : SocketAddr) (rest : List SocketAddr) (h : resolve s = .ok (a :: rest)) :
    tcpEndpointOf resolve s = .ok (.tcp a) := by
  rw [tcpEndpointOf, h]

theorem error_messages_distinct (s e s' : String) :
    ("Invalid address `" ++ s ++ "`: " ++ e) ≠
      ("Invalid hostname `" ++ s' ++ "`: no addresses found") := by
  intro h
  have h9 := congrArg (fun t => t.toList.take 9) h
  simp only [string_toList_append, List.append_assoc] at h9
  rw [List.take_append_of_le_length (by decide),
    List.take_append_of_le_length (by decide)] at h9
  exact absurd h9 (by decide)

/-- C7: endpoint parsing.  (a) A tcp resolution failure and (b) a resolution
that returns no addresses produce the two distinct error messages (c); (d) on
success exactly the first resolved address is kept; (e) an unrecognized
scheme fails with a descriptive error; (f) a platform-inappropriate scheme
(unix on Windows, pipe on Unix) fails with a descriptive error; (g) when the
scheme is omitted the address is parsed as tcp. -/
theorem endpoint_parsing_cases :
    (∀ (resolve : String → Except String (List SocketAddr)) (plat : Platform) (s e : String),
        resolve s = .error e →
        endpointFromStr resolve plat ("tcp://" ++ s) =
          .error ("Invalid address `" ++ s ++ "`: " ++ e)) ∧
    (∀ (resolve : String → Except String (List SocketAddr)) (plat : Platform) (s : String),
        resolve s = .ok [] →
        endpointFromStr resolve plat ("tcp://" ++ s) =
          .error ("Invalid hostname `" ++ s ++ "`: no addresses found")) ∧
    (∀ s e s' : String,
        ("Invalid address `" ++ s ++ "`: " ++ e) ≠
          ("Invalid hostname `" ++ s' ++ "`: no addresses found")) ∧
    (∀ (resolve : String → Except String (List SocketAddr)) (plat : Platform) (s : String)
        (a : SocketAddr) (rest : List SocketAddr),
        resolve s = .ok (a :: rest) →
        endpointFromStr resolve plat ("tcp://" ++ s) = .ok (.tcp a)) ∧
    (∀ (resolve : String → Except String (List SocketAddr)) (plat : Platform) (sch addr : String),
        (∀ c ∈ sch.toList, c ≠ ':') → sch ≠ "tcp" → sch ≠ "unix" → sch ≠ "pipe" →
        endpointFromStr resolve plat (sch ++ "://" ++ addr) =
          .error ("Unrecognised scheme `" ++ sch ++ "`")) ∧
    (∀ (resolve : String → Except String (List SocketAddr)) (path : String),
        endpointFromStr resolve .windowsOS ("unix://" ++ path) =
          .error "Unix sockets are not supported on Windows") ∧
    (∀ (resolve : String → Except String (List SocketAddr)) (name : String),
        endpointFromStr resolve .unixOS ("pipe://" ++ name) =
          .error "Named pipes are not supported on Unix") ∧
    (∀ (resolve : String → Except String (List SocketAddr)) (plat : Platform) (s : String),
        splitOnceStr "://" s = none →
        endpointFromStr resolve plat s = tcpEndpointOf resolve s) := by
  refine ⟨?_, ?_, error_messages_distinct, ?_, endpointFromStr_unknown_scheme, ?_, ?_, ?_⟩
  · intro resolve plat s e h
    rw [endpointFromStr_explicit_tcp, tcpEndpointOf_resolve_error resolve s e h]
  · intro resolve plat s h
    rw [endpointFromStr_explicit_tcp, tcpEndpointOf_resolve_empty resolve s h]
  · intro resolve plat s a rest h
    rw [endpointFromStr_explicit_tcp, tcpEndpointOf_resolve_first resolve s a rest h]
  · intro resolve path
    rw [endpointFromStr_explicit_unix]
  · intro resolve name
    rw [endpointFromStr_explicit_pipe]
  · intro resolve plat s h
    rw [endpointFromStr, h]

theorem endpoint_parsing_cases_witness :
    (resolveStd "nocolon" = .error "invalid socket address" ∧
      endpointFromStr resolveStd .unixOS ("tcp://" ++ "nocolon") =
        .error "Invalid address `nocolon`: invalid socket address") ∧
    ((fun (_ : String) => (Except.ok [] : Except String (List SocketAddr))) "h:80" = .ok [] ∧
      endpointFromStr (fun _ => .ok []) .unixOS ("tcp://" ++ "h:80") =
        .error "Invalid hostname `h:80`: no addresses found") ∧
    ("Invalid address `x`: e" ≠ "Invalid hostname `x`: no addresses found") ∧
    (resolveStd "127.0.0.1:80" = .ok [⟨127, 0, 0, 1, 80⟩] ∧
      endpointFromStr resolveStd .unixOS ("tcp://" ++ "127.0.0.1:80") =
        .ok (.tcp ⟨127, 0, 0, 1, 80⟩)) ∧
    endpointFromStr resolveStd .unixOS ("ftp" ++ "://" ++ "x") =
      .error "Unrecognised scheme `ftp`" ∧
    endpointFromStr resolveStd .windowsOS ("unix://" ++ "/a") =
      .error "Unix sockets are not supported on Windows" ∧
    endpointFromStr resolveStd .unixOS ("pipe://" ++ "n") =
      .error "Named pipes are not supported on Unix" ∧
    (splitOnceStr "://" "127.0.0.1:80" = none ∧
      endpointFromStr resolveStd .unixOS "127.0.0.1:80" = .ok (.tcp ⟨127, 0, 0, 1, 80⟩)) := by
  refine ⟨⟨by decide, ?_⟩, ⟨rfl, ?_⟩, ?_, ⟨by decide, ?_⟩, ?_, ?_, ?_, ⟨by decide, ?_⟩⟩
  · exact (endpoint_parsing_cases.1 resolveStd .unixOS "nocolon" "invalid socket address"
      (by decide)).trans (by decide)
  · exact (endpoint_parsing_cases.2.1 (fun _ => .ok []) .unixOS "h:80" rfl).trans (by decide)
  · exact endpoint_parsing_cases.2.2.1 "x" "e" "x"
  · exact (endpoint_parsing_cases.2.2.2.1 resolveStd .unixOS "127.0.0.1:80"
      ⟨127, 0, 0, 1, 80⟩ [] (by decide)).trans (by decide)
  · exact (endpoint_parsing_cases.2.2.2.2.1 resolveStd .unixOS "ftp" "x"
      (by decide) (by decide) (by decide) (by decide)).trans (by decide)
  · exact endpoint_parsing_cases.2.2.2.2.2.1 resolveStd "/a"
  · exact endpoint_parsing_cases.2.2.2.2.2.2.1 resolveStd "n"
  · exact (endpoint_parsing_cases.2.2.2.2.2.2.2 resolveStd .unixOS "127.0.0.1:80"
      (by decide)).trans (by decide)

/-- C4 counterexample: the valid unix endpoint `/tmp/x` (on the unix
platform) formats to `unix:/tmp/x` — a single colon, no `//` — and that
string does not reparse to the endpoint: parsing requires `unix://`, so the
formatted string falls through to the tcp default, where address resolution
deterministically fails (`/tmp/x` is not a numeric port).  Formatting then
reparsing therefore does not yield the same logical endpoint. -/
theorem endpoint_format_reparse_fails :
    displayEndpoint (Endpoint.unix "/tmp/x") = "unix:/tmp/x" ∧
    endpointFromStr resolveStd Platform.unixOS (displayEndpoint (Endpoint.unix "/tmp/x")) =
      .error "Invalid address `unix:/tmp/x`: invalid port value" ∧
    endpointFromStr resolveStd Platform.unixOS (displayEndpoint (Endpoint.unix "/tmp/x")) ≠
      .ok (Endpoint.unix "/tmp/x") := by
  refine ⟨by decide, by decide, ?_⟩
  intro h
  exact absurd ((by decide : endpointFromStr resolveStd Platform.unixOS
    (displayEndpoint (Endpoint.unix "/tmp/x")) =
      .error "Invalid address `unix:/tmp/x`: invalid port value").symm.trans h) (by decide)

/-- C4 amended: parsing an endpoint string then formatting the resulting
Endpoint preserves the logical endpoint — the parsed value carries exactly
the scheme and address of the input, and formatting renders that same scheme
and address (as `scheme:address`, with a single colon) — for every supported
scheme on either platform; but the formatted string is not reparseable, so
the roundtrip holds only in the parse-then-format direction (formatting then
reparsing fails, see the counterexample). -/
theorem endpoint_parse_format :
    (∀ (resolve : String → Except String (List SocketAddr)) (path : String),
        endpointFromStr resolve .unixOS ("unix://" ++ path) = .ok (.unix path) ∧
        displayEndpoint (.unix path) = "unix:" ++ path) ∧
    (∀ (resolve : String → Except String (List SocketAddr)) (name : String),
        endpointFromStr resolve .windowsOS ("pipe://" ++ name) = .ok (.pipe name) ∧
        displayEndpoint (.pipe name) = "pipe:" ++ name) ∧
    (∀ (resolve : String → Except String (List SocketAddr)) (plat : Platform) (s : String)
        (a : SocketAddr) (rest : List SocketAddr),
        resolve s = .ok (a :: rest) →
        endpointFromStr resolve plat ("tcp://" ++ s) = .ok (.tcp a) ∧
        displayEndpoint (.tcp a) = "tcp:" ++ displaySocketAddr a) := by
  refine ⟨?_, ?_, ?_⟩
  · intro resolve path
    exact ⟨by rw [endpointFromStr_explicit_unix], rfl⟩
  · intro resolve name
    exact ⟨by rw [endpointFromStr_explicit_pipe], rfl⟩
  · intro resolve plat s a rest h
    exact ⟨by rw [endpointFromStr_explicit_tcp, tcpEndpointOf_resolve_first resolve s a rest h],
      rfl⟩

theorem endpoint_parse_format_witness :
    (endpointFromStr resolveStd .unixOS ("unix://" ++ "/tmp/x") = .ok (.unix "/tmp/x") ∧
      displayEndpoint (.unix "/tmp/x") = "unix:" ++ "/tmp/x") ∧
    (resolveStd "127.0.0.1:80" = .ok [⟨127, 0, 0, 1, 80⟩] ∧
      endpointFromStr resolveStd .unixOS ("tcp://" ++ "127.0.0.1:80") =
        .ok (.tcp ⟨127, 0, 0, 1, 80⟩) ∧
      displayEndpoint (.tcp ⟨127, 0, 0, 1, 80⟩) = "tcp:" ++ "127.0.0.1:80") := by
  refine ⟨endpoint_parse_format.1 resolveStd "/tmp/x", by decide, ?_, ?_⟩
  · exact (endpoint_parse_format.2.2 resolveStd .unixOS "127.0.0.1:80"
      ⟨127, 0, 0, 1, 80⟩ [] (by decide)).1
  · exact ((endpoint_parse_format.2.2 resolveStd .unixOS "127.0.0.1:80"
      ⟨127, 0, 0, 1, 80⟩ [] (by decide)).2).trans (by decide)

end Pxx
